import Mathlib

/-!
Formal model of the mini-game logic of the Kids Music Learning App
(`src/script.js`).  Each mini-game's mutable variables are collected into a
state structure; every DOM event handler from the source becomes a pure state
transformer, and `setTimeout` callbacks become explicit timer events that may
fire only while a matching timeout is pending.  Random draws
(`Math.floor(Math.random() * len)`) are modelled by letting the corresponding
event carry the drawn index.  CSS classes that gate the handlers
(`correct`, `wrong`) are modelled as finite sets of key indices; purely visual
artefacts (highlighting, score labels, the selected-notes label) are omitted.
-/

namespace Music

/-- One entry of the `NOTES` table: note name, frequency in Hz, display color. -/
structure Note where
  name : Char
  freq : ℚ
  color : String
deriving DecidableEq

/-- The fixed 7-note catalog (`NOTES` in script.js). -/
def NOTES : List Note :=
  [⟨'C', 261.63, "#f44336"⟩,
   ⟨'D', 293.66, "#e91e63"⟩,
   ⟨'E', 329.63, "#9c27b0"⟩,
   ⟨'F', 349.23, "#3f51b5"⟩,
   ⟨'G', 392.0, "#009688"⟩,
   ⟨'A', 440.0, "#4caf50"⟩,
   ⟨'B', 493.88, "#ff9800"⟩]

/-- Keyboard keys are identified with positions in `NOTES` (one key per note). -/
def noteAt (i : Fin 7) : Note := NOTES.get ⟨i.val, i.isLt⟩

/-- One entry of the `CHORDS` table. -/
structure Chord where
  name : String
  notes : List Char
deriving DecidableEq

/-- The chord catalog (`CHORDS` in script.js, defined inside `initApp`). -/
def CHORDS : List Chord :=
  [⟨"C major", ['C', 'E', 'G']⟩,
   ⟨"F major", ['F', 'A', 'C']⟩,
   ⟨"G major", ['G', 'B', 'D']⟩,
   ⟨"A minor", ['A', 'C', 'E']⟩,
   ⟨"D minor", ['D', 'F', 'A']⟩,
   ⟨"E minor", ['E', 'G', 'B']⟩]

def chordAt (i : Fin 6) : Chord := CHORDS.get ⟨i.val, i.isLt⟩

/-- One entry of the `SCALES` table. -/
structure Scale where
  name : String
  notes : List Char
deriving DecidableEq

/-- The scale catalog (`SCALES` in script.js). -/
def SCALES : List Scale :=
  [⟨"C major", ['C', 'D', 'E', 'F', 'G', 'A', 'B', 'C']⟩,
   ⟨"A natural minor", ['A', 'B', 'C', 'D', 'E', 'F', 'G', 'A']⟩,
   ⟨"G pentatonic", ['G', 'A', 'B', 'D', 'E', 'G']⟩]

def scaleAt (i : Fin 3) : Scale := SCALES.get ⟨i.val, i.isLt⟩

/-- One entry of the `INTERVALS` table. -/
structure IntervalEntry where
  name : String
  steps : Nat
deriving DecidableEq

/-- The interval catalog (`INTERVALS` in script.js). -/
def INTERVALS : List IntervalEntry :=
  [⟨"major second", 1⟩,
   ⟨"major third", 2⟩,
   ⟨"perfect fourth", 3⟩,
   ⟨"perfect fifth", 4⟩,
   ⟨"major sixth", 5⟩,
   ⟨"octave", 7⟩]

def intervalAt (i : Fin 6) : IntervalEntry := INTERVALS.get ⟨i.val, i.isLt⟩

/-- One entry of the `TIME_SIGS` table. -/
structure TimeSig where
  name : String
  beats : Nat
deriving DecidableEq

/-- The time-signature catalog (`TIME_SIGS` in script.js). -/
def TIME_SIGS : List TimeSig :=
  [⟨"2/4", 2⟩, ⟨"3/4", 3⟩, ⟨"4/4", 4⟩]

def timeSigAt (i : Fin 3) : TimeSig := TIME_SIGS.get ⟨i.val, i.isLt⟩

/-- `const totalRounds = 5` (note-match game). -/
def totalRounds : Nat := 5

/-- `const chordTotalRounds = 5`. -/
def chordTotalRounds : Nat := 5

/-- `const scaleTotalRounds = 3`. -/
def scaleTotalRounds : Nat := 3

/-- `const intervalTotalRounds = 5`. -/
def intervalTotalRounds : Nat := 5

/-- `const timeTotalRounds = 5`. -/
def timeTotalRounds : Nat := 5

/-! ### Note-match game (`nextRound` / `handleGameKeyClick`) -/

/-- State of the note-matching game: the module-level variables
`currentRound`, `score`, `currentNote`, together with the `correct` / `wrong`
CSS classes on the seven game-keyboard keys (as sets of key indices), the
`#feedback` text, and the number of pending `setTimeout` callbacks that will
run `nextRound`. -/
structure NoteGameState where
  currentRound : Nat
  score : Nat
  currentNote : Option (Fin 7)
  correctKeys : Finset (Fin 7)
  wrongKeys : Finset (Fin 7)
  feedback : String
  pendingNext : Nat
deriving DecidableEq

/-- `nextRound()`: at or past the round limit, show the completion message;
otherwise draw the note at index `pick` and clear all key marks. -/
def nextRound (pick : Fin 7) (s : NoteGameState) : NoteGameState :=
  if s.currentRound ≥ totalRounds then
    { s with feedback :=
        "Great job! You scored " ++ toString s.score ++ " out of " ++
          toString totalRounds ++ "." }
  else
    { s with currentNote := some pick, correctKeys := ∅, wrongKeys := ∅ }

/-- `handleGameKeyClick(note, keyEl)` for the key at index `k`. -/
def handleGameKeyClick (k : Fin 7) (s : NoteGameState) : NoteGameState :=
  match s.currentNote with
  | none => s
  | some t =>
    if k ∈ s.correctKeys ∨ k ∈ s.wrongKeys then s
    else if (noteAt k).name = (noteAt t).name then
      { s with correctKeys := insert k s.correctKeys,
               feedback := "Correct!",
               score := s.score + 1,
               currentRound := s.currentRound + 1,
               pendingNext := s.pendingNext + 1 }
    else
      { s with wrongKeys := insert k s.wrongKeys, feedback := "Try again..." }

/-- Events of the note game: a key click, or the firing of a pending
`setTimeout` callback (which clears the feedback and runs `nextRound` with a
fresh random draw `pick`). -/
inductive NoteGameEvent
  | keyClick (k : Fin 7)
  | nextTimer (pick : Fin 7)

/-- One event step of the note game. A `nextTimer` event fires only when a
timeout is pending. -/
def noteGameStep (e : NoteGameEvent) (s : NoteGameState) : NoteGameState :=
  match e with
  | NoteGameEvent.keyClick k => handleGameKeyClick k s
  | NoteGameEvent.nextTimer pick =>
    if s.pendingNext = 0 then s
    else nextRound pick { s with feedback := "", pendingNext := s.pendingNext - 1 }

/-- Entering the note game (the `btn-note-game` click listener): reset round,
score and feedback, rebuild the keyboard (clearing all key marks), then start
the first round with draw `pick`. -/
def noteGameEnter (pick : Fin 7) : NoteGameState :=
  nextRound pick
    { currentRound := 0, score := 0, currentNote := none,
      correctKeys := ∅, wrongKeys := ∅, feedback := "", pendingNext := 0 }

/-- Run a sequence of note-game events from a state. -/
def noteGameRun (s : NoteGameState) (evs : List NoteGameEvent) : NoteGameState :=
  evs.foldl (fun s e => noteGameStep e s) s

/-! ### Chord builder (`nextChordRound` / `handleChordKeyClick` / `check-chord`) -/

/-- State of the chord builder: `chordRound`, `chordScore`, `currentChord`,
`selectedNotes` (in click order), the `correct` / `wrong` classes on the chord
keyboard, the `#chord-feedback` text, and the pending `nextChordRound`
timeouts. (The `selected` class always mirrors membership in `selectedNotes`
and is not tracked separately.) -/
structure ChordGameState where
  chordRound : Nat
  chordScore : Nat
  currentChord : Option (Fin 6)
  selectedNotes : List Char
  correctKeys : Finset (Fin 7)
  wrongKeys : Finset (Fin 7)
  feedback : String
  pendingNext : Nat
deriving DecidableEq

/-- `nextChordRound()`. -/
def nextChordRound (pick : Fin 6) (s : ChordGameState) : ChordGameState :=
  if s.chordRound ≥ chordTotalRounds then
    { s with feedback :=
        "Great job! You built " ++ toString s.chordScore ++ " out of " ++
          toString chordTotalRounds ++ " chords correctly." }
  else
    { s with currentChord := some pick, selectedNotes := [],
             correctKeys := ∅, wrongKeys := ∅ }

/-- `handleChordKeyClick(note, keyEl)`: toggle the clicked note's membership
in `selectedNotes` (`splice` removes the first occurrence, `push` appends). -/
def handleChordKeyClick (k : Fin 7) (s : ChordGameState) : ChordGameState :=
  let nm := (noteAt k).name
  if nm ∈ s.selectedNotes then
    { s with selectedNotes := s.selectedNotes.erase nm }
  else
    { s with selectedNotes := s.selectedNotes ++ [nm] }

/-- The comparison done by the `check-chord` listener:
`selectedNotes.slice().sort().join('') === currentChord.notes.slice().sort().join('')`.
Note names are single characters, so `join('')` of the sorted names is the
sorted character list rendered as a string. -/
def chordJudge (sel : List Char) (c : Chord) : Bool :=
  (sel.insertionSort (· ≤ ·)).asString = (c.notes.insertionSort (· ≤ ·)).asString

/-- The `check-chord` click listener: judge the current selection; on success
increment `chordScore`; either way mark keys, increment `chordRound`, and
schedule `nextChordRound`. -/
def checkChord (s : ChordGameState) : ChordGameState :=
  match s.currentChord with
  | none => s
  | some c =>
    let s1 :=
      if chordJudge s.selectedNotes (chordAt c) then
        { s with chordScore := s.chordScore + 1,
                 feedback := "Correct!",
                 correctKeys := s.correctKeys ∪
                   Finset.univ.filter (fun k => (noteAt k).name ∈ (chordAt c).notes) }
      else
        { s with feedback :=
            "Not quite. The correct notes were " ++
              String.intercalate ", " ((chordAt c).notes.map Char.toString) ++ ".",
                 wrongKeys := s.wrongKeys ∪
                   Finset.univ.filter (fun k =>
                     (noteAt k).name ∈ s.selectedNotes ∧
                       (noteAt k).name ∉ (chordAt c).notes),
                 correctKeys := s.correctKeys ∪
                   Finset.univ.filter (fun k => (noteAt k).name ∈ (chordAt c).notes) }
    { s1 with chordRound := s1.chordRound + 1, pendingNext := s1.pendingNext + 1 }

/-- Events of the chord builder: key clicks, the Check button, and the firing
of a pending `nextChordRound` timeout carrying the next random draw. -/
inductive ChordGameEvent
  | keyClick (k : Fin 7)
  | checkClick
  | nextTimer (pick : Fin 6)

/-- One event step of the chord builder. -/
def chordGameStep (e : ChordGameEvent) (s : ChordGameState) : ChordGameState :=
  match e with
  | ChordGameEvent.keyClick k => handleChordKeyClick k s
  | ChordGameEvent.checkClick => checkChord s
  | ChordGameEvent.nextTimer pick =>
    if s.pendingNext = 0 then s
    else nextChordRound pick { s with feedback := "", pendingNext := s.pendingNext - 1 }

/-- Entering the chord builder (`btn-chords-game` listener). -/
def chordGameEnter (pick : Fin 6) : ChordGameState :=
  nextChordRound pick
    { chordRound := 0, chordScore := 0, currentChord := none, selectedNotes := [],
      correctKeys := ∅, wrongKeys := ∅, feedback := "", pendingNext := 0 }

/-- Run a sequence of chord-builder events from a state. -/
def chordGameRun (s : ChordGameState) (evs : List ChordGameEvent) : ChordGameState :=
  evs.foldl (fun s e => chordGameStep e s) s

/-! ### Scale practice (`nextScaleRound` / `handleScaleKeyClick`) -/

/-- State of scale practice: `scaleRound`, `scaleScore`, `currentScale`,
`scaleIndex`, the `correct` / `wrong` classes on the scale keyboard, the
`#scale-feedback` text, pending `nextScaleRound` timeouts, and the FIFO queue
of pending wrong-mark-clearing timeouts (one per wrong click, equal delays).
The purely visual `scale-highlight` class is omitted. -/
structure ScaleGameState where
  scaleRound : Nat
  scaleScore : Nat
  currentScale : Option (Fin 3)
  scaleIndex : Nat
  correctKeys : Finset (Fin 7)
  wrongKeys : Finset (Fin 7)
  feedback : String
  pendingNext : Nat
  pendingWrongClear : List (Fin 7)
deriving DecidableEq

/-- `nextScaleRound()`. -/
def nextScaleRound (pick : Fin 3) (s : ScaleGameState) : ScaleGameState :=
  if s.scaleRound ≥ scaleTotalRounds then
    { s with feedback :=
        "Fantastic! You played " ++ toString s.scaleScore ++ " out of " ++
          toString scaleTotalRounds ++ " scales correctly." }
  else
    { s with currentScale := some pick, scaleIndex := 0,
             correctKeys := ∅, wrongKeys := ∅ }

/-- `handleScaleKeyClick(note, keyEl)`: ignore clicks on keys already marked
`correct`; compare the clicked name with `currentScale.notes[scaleIndex]`
(an out-of-range index yields `undefined` in JS, which compares unequal to
every name, hence the `Option`-valued lookup); on a match mark the key,
advance, and on completing the sequence score the round and schedule
`nextScaleRound`; otherwise mark the key `wrong` and schedule its clearing. -/
def handleScaleKeyClick (k : Fin 7) (s : ScaleGameState) : ScaleGameState :=
  match s.currentScale with
  | none => s
  | some sc =>
    if k ∈ s.correctKeys then s
    else if (scaleAt sc).notes.get? s.scaleIndex = some (noteAt k).name then
      let s1 := { s with correctKeys := insert k s.correctKeys,
                         wrongKeys := s.wrongKeys.erase k,
                         scaleIndex := s.scaleIndex + 1 }
      if s1.scaleIndex ≥ (scaleAt sc).notes.length then
        { s1 with scaleScore := s1.scaleScore + 1,
                  feedback := "Great job! You completed the scale.",
                  scaleRound := s1.scaleRound + 1,
                  pendingNext := s1.pendingNext + 1 }
      else s1
    else
      { s with wrongKeys := insert k s.wrongKeys,
               feedback := "Try again...",
               pendingWrongClear := s.pendingWrongClear ++ [k] }

/-- Events of scale practice: key clicks, the pending `nextScaleRound`
timeout, and the wrong-mark-clearing timeouts firing in FIFO order. -/
inductive ScaleGameEvent
  | keyClick (k : Fin 7)
  | nextTimer (pick : Fin 3)
  | wrongTimer

/-- One event step of scale practice. -/
def scaleGameStep (e : ScaleGameEvent) (s : ScaleGameState) : ScaleGameState :=
  match e with
  | ScaleGameEvent.keyClick k => handleScaleKeyClick k s
  | ScaleGameEvent.nextTimer pick =>
    if s.pendingNext = 0 then s
    else nextScaleRound pick { s with feedback := "", pendingNext := s.pendingNext - 1 }
  | ScaleGameEvent.wrongTimer =>
    match s.pendingWrongClear with
    | [] => s
    | k :: rest =>
      { s with wrongKeys := s.wrongKeys.erase k, feedback := "",
               pendingWrongClear := rest }

/-- Entering scale practice (`btn-scales-game` listener). -/
def scaleGameEnter (pick : Fin 3) : ScaleGameState :=
  nextScaleRound pick
    { scaleRound := 0, scaleScore := 0, currentScale := none, scaleIndex := 0,
      correctKeys := ∅, wrongKeys := ∅, feedback := "", pendingNext := 0,
      pendingWrongClear := [] }

/-- Run a sequence of scale-practice events from a state. -/
def scaleGameRun (s : ScaleGameState) (evs : List ScaleGameEvent) : ScaleGameState :=
  evs.foldl (fun s e => scaleGameStep e s) s

/-! ### Interval trainer (`nextIntervalRound` / `handleIntervalKeyClick`) -/

/-- State of the interval trainer: `intervalRound`, `intervalScore`,
`intervalRoot` (the stored note object), `currentIntervalObj` (as an index
into `INTERVALS`), the key classes, the `#interval-feedback` text, and the
pending timeouts.  The visual `interval-root` class is omitted. -/
structure IntervalGameState where
  intervalRound : Nat
  intervalScore : Nat
  intervalRoot : Option Note
  currentIntervalObj : Option (Fin 6)
  correctKeys : Finset (Fin 7)
  wrongKeys : Finset (Fin 7)
  feedback : String
  pendingNext : Nat
  pendingWrongClear : List (Fin 7)
deriving DecidableEq

/-- The rejection-sampling loop of `nextIntervalRound`: keep drawing
`(rootIndex, interval)` pairs while `rootIndex + steps >= NOTES.length`.  The
stream of draws is supplied as a list; `none` means no acceptable pair
appeared in it (in JS the loop would simply keep drawing). -/
def pickValid (draws : List (Fin 7 × Fin 6)) : Option (Fin 7 × Fin 6) :=
  draws.find? (fun p => p.1.val + (intervalAt p.2).steps < NOTES.length)

/-- `nextIntervalRound()`: at the round limit, show the completion message;
otherwise clear key marks and draw a root/interval pair by rejection
sampling.  If the supplied draw stream has no acceptable pair the JS loop
never returns; this is modelled by leaving the target unchanged. -/
def nextIntervalRound (draws : List (Fin 7 × Fin 6)) (s : IntervalGameState) :
    IntervalGameState :=
  if s.intervalRound ≥ intervalTotalRounds then
    { s with feedback :=
        "Excellent! You identified " ++ toString s.intervalScore ++ " out of " ++
          toString intervalTotalRounds ++ " intervals correctly." }
  else
    let s1 := { s with correctKeys := ∅, wrongKeys := ∅ }
    match pickValid draws with
    | none => s1
    | some p =>
      { s1 with intervalRoot := some (noteAt p.1), currentIntervalObj := some p.2 }

/-- `handleIntervalKeyClick(note, keyEl)`: guard on missing target and on keys
already marked; recover `rootIndex` by `findIndex` on the root's name, look up
`NOTES[rootIndex + steps]` (out of range would throw in JS; unreachable by the
sampling invariant, modelled as a no-op), and compare names. -/
def handleIntervalKeyClick (k : Fin 7) (s : IntervalGameState) : IntervalGameState :=
  match s.intervalRoot, s.currentIntervalObj with
  | some root, some io =>
    if k ∈ s.correctKeys ∨ k ∈ s.wrongKeys then s
    else
      let rootIndex := NOTES.findIdx (fun n => n.name == root.name)
      let expectedIndex := rootIndex + (intervalAt io).steps
      match NOTES.get? expectedIndex with
      | none => s
      | some expected =>
        if (noteAt k).name = expected.name then
          { s with correctKeys := insert k s.correctKeys,
                   feedback := "Correct!",
                   intervalScore := s.intervalScore + 1,
                   intervalRound := s.intervalRound + 1,
                   pendingNext := s.pendingNext + 1 }
        else
          { s with wrongKeys := insert k s.wrongKeys,
                   feedback := "Try again...",
                   pendingWrongClear := s.pendingWrongClear ++ [k] }
  | _, _ => s

/-- Events of the interval trainer: key clicks, the pending
`nextIntervalRound` timeout (carrying the next draw stream), and the
wrong-mark-clearing timeouts in FIFO order. -/
inductive IntervalGameEvent
  | keyClick (k : Fin 7)
  | nextTimer (draws : List (Fin 7 × Fin 6))
  | wrongTimer

/-- One event step of the interval trainer. -/
def intervalGameStep (e : IntervalGameEvent) (s : IntervalGameState) :
    IntervalGameState :=
  match e with
  | IntervalGameEvent.keyClick k => handleIntervalKeyClick k s
  | IntervalGameEvent.nextTimer draws =>
    if s.pendingNext = 0 then s
    else nextIntervalRound draws
      { s with feedback := "", pendingNext := s.pendingNext - 1 }
  | IntervalGameEvent.wrongTimer =>
    match s.pendingWrongClear with
    | [] => s
    | k :: rest =>
      { s with wrongKeys := s.wrongKeys.erase k, feedback := "",
               pendingWrongClear := rest }

/-- Entering the interval trainer (`btn-interval-game` listener). -/
def intervalGameEnter (draws : List (Fin 7 × Fin 6)) : IntervalGameState :=
  nextIntervalRound draws
    { intervalRound := 0, intervalScore := 0, intervalRoot := none,
      currentIntervalObj := none, correctKeys := ∅, wrongKeys := ∅,
      feedback := "", pendingNext := 0, pendingWrongClear := [] }

/-- Run a sequence of interval-trainer events from a state. -/
def intervalGameRun (s : IntervalGameState) (evs : List IntervalGameEvent) :
    IntervalGameState :=
  evs.foldl (fun s e => intervalGameStep e s) s

/-! ### Time-signature challenge (`nextTimeRound` / `handleTimeNoteClick`) -/

/-- `Math.round(x * 100) / 100`: JS `Math.round` rounds half toward
positive infinity. -/
def jsRound2 (q : ℚ) : ℚ := ((⌊q * 100 + 1 / 2⌋ : ℤ) : ℚ) / 100

/-- State of the time-signature challenge: `timeRound`, `timeScore`,
`currentTimeSig`, `currentMeasureTotal`, the `#time-feedback` text, and the
pending `nextTimeRound` / measure-reset timeouts. -/
structure TimeGameState where
  timeRound : Nat
  timeScore : Nat
  currentTimeSig : Option (Fin 3)
  currentMeasureTotal : ℚ
  feedback : String
  pendingNext : Nat
  pendingReset : Nat
deriving DecidableEq

/-- `nextTimeRound()`. -/
def nextTimeRound (pick : Fin 3) (s : TimeGameState) : TimeGameState :=
  if s.timeRound ≥ timeTotalRounds then
    { s with feedback :=
        "Great job! You completed " ++ toString s.timeScore ++ " out of " ++
          toString timeTotalRounds ++ " measures correctly." }
  else
    { s with currentTimeSig := some pick, currentMeasureTotal := 0, feedback := "" }

/-- `handleTimeNoteClick(value)`: accumulate the clicked beat value (rounded
to two decimals); within 0.001 of the target resolve the round correct; above
the target schedule a measure reset; below it keep waiting. -/
def handleTimeNoteClick (v : ℚ) (s : TimeGameState) : TimeGameState :=
  match s.currentTimeSig with
  | none => s
  | some sig =>
    let total := jsRound2 (s.currentMeasureTotal + v)
    let s1 := { s with currentMeasureTotal := total }
    if |total - ((timeSigAt sig).beats : ℚ)| < 1 / 1000 then
      { s1 with timeScore := s1.timeScore + 1,
                feedback := "Nice! Measure complete.",
                timeRound := s1.timeRound + 1,
                pendingNext := s1.pendingNext + 1 }
    else if total > ((timeSigAt sig).beats : ℚ) then
      { s1 with feedback := "Too many beats! Try again.",
                pendingReset := s1.pendingReset + 1 }
    else s1

/-- Events of the time game: a note-duration button click carrying its beat
value, the Reset Measure button, and the two kinds of pending timeouts. -/
inductive TimeGameEvent
  | noteClick (v : ℚ)
  | resetClick
  | nextTimer (pick : Fin 3)
  | resetTimer

/-- One event step of the time game. -/
def timeGameStep (e : TimeGameEvent) (s : TimeGameState) : TimeGameState :=
  match e with
  | TimeGameEvent.noteClick v => handleTimeNoteClick v s
  | TimeGameEvent.resetClick =>
    match s.currentTimeSig with
    | none => s
    | some _ => { s with currentMeasureTotal := 0, feedback := "" }
  | TimeGameEvent.nextTimer pick =>
    if s.pendingNext = 0 then s
    else nextTimeRound pick { s with feedback := "", pendingNext := s.pendingNext - 1 }
  | TimeGameEvent.resetTimer =>
    if s.pendingReset = 0 then s
    else { s with currentMeasureTotal := 0, feedback := "",
                  pendingReset := s.pendingReset - 1 }

/-- Entering the time game (`btn-time-game` listener). -/
def timeGameEnter (pick : Fin 3) : TimeGameState :=
  nextTimeRound pick
    { timeRound := 0, timeScore := 0, currentTimeSig := none,
      currentMeasureTotal := 0, feedback := "", pendingNext := 0, pendingReset := 0 }

/-- Run a sequence of time-game events from a state. -/
def timeGameRun (s : TimeGameState) (evs : List TimeGameEvent) : TimeGameState :=
  evs.foldl (fun s e => timeGameStep e s) s

/-! ### Helper lemmas -/

/-- Note names are pairwise distinct, so a key is determined by its name. -/
lemma noteAt_name_inj (k₁ k₂ : Fin 7) (h : (noteAt k₁).name = (noteAt k₂).name) :
    k₁ = k₂ := by
  revert h
  revert k₁ k₂
  decide

/-- `findIndex` on a stored note's name recovers its index. -/
lemma findIdx_noteAt (r : Fin 7) :
    NOTES.findIdx (fun n => n.name == (noteAt r).name) = r.val := by
  revert r
  decide

/-! ### Note game invariant -/

/-- Inductive invariant of the note game: the score mirrors the round index,
the round index never exceeds the limit, and once it has reached the limit the
current target's key is already marked correct (so no further correct click is
possible). -/
def noteGameInv (s : NoteGameState) : Prop :=
  s.score = s.currentRound ∧ s.currentRound ≤ totalRounds ∧
    ∀ t : Fin 7, s.currentNote = some t → t ∈ s.correctKeys ∨ s.currentRound < totalRounds

lemma noteGameInv_step (e : NoteGameEvent) (s : NoteGameState) (h : noteGameInv s) :
    noteGameInv (noteGameStep e s) := by
  obtain ⟨hsc, hle, hmark⟩ := h
  cases e with
  | keyClick k =>
    show noteGameInv (handleGameKeyClick k s)
    unfold handleGameKeyClick
    cases hcn : s.currentNote with
    | none => exact ⟨hsc, hle, hmark⟩
    | some t =>
      dsimp only
      by_cases hsel : k ∈ s.correctKeys ∨ k ∈ s.wrongKeys
      · rw [if_pos hsel]
        exact ⟨hsc, hle, hmark⟩
      · rw [if_neg hsel]
        by_cases hname : (noteAt k).name = (noteAt t).name
        · rw [if_pos hname]
          have hkt : k = t := noteAt_name_inj _ _ hname
          have hlt : s.currentRound < totalRounds := by
            rcases hmark t hcn with hmem | hlt
            · exact absurd (Or.inl (hkt ▸ hmem)) hsel
            · exact hlt
          refine ⟨?_, ?_, ?_⟩
          · dsimp only
            omega
          · dsimp only
            omega
          · intro t' ht'
            dsimp only at ht' ⊢
            obtain rfl : t = t' := by injection ht'
            exact Or.inl (Finset.mem_insert.mpr (Or.inl hkt.symm))
        · rw [if_neg hname]
          refine ⟨hsc, hle, ?_⟩
          intro t' ht'
          dsimp only at ht' ⊢
          obtain rfl : t = t' := by injection ht'
          exact hmark t hcn
  | nextTimer pick =>
    show noteGameInv (noteGameStep (NoteGameEvent.nextTimer pick) s)
    unfold noteGameStep
    dsimp only
    by_cases hp : s.pendingNext = 0
    · rw [if_pos hp]
      exact ⟨hsc, hle, hmark⟩
    · rw [if_neg hp]
      unfold nextRound
      dsimp only
      by_cases hr : s.currentRound ≥ totalRounds
      · rw [if_pos hr]
        exact ⟨hsc, hle, fun t ht => hmark t ht⟩
      · rw [if_neg hr]
        refine ⟨hsc, hle, ?_⟩
        intro t _
        dsimp only
        exact Or.inr (by omega)

lemma noteGameInv_run (s : NoteGameState) (evs : List NoteGameEvent)
    (h : noteGameInv s) : noteGameInv (noteGameRun s evs) := by
  induction evs generalizing s with
  | nil => exact h
  | cons e evs ih => exact ih _ (noteGameInv_step e s h)

lemma noteGameInv_enter (pick : Fin 7) : noteGameInv (noteGameEnter pick) := by
  refine ⟨rfl, by norm_num [noteGameEnter, nextRound, totalRounds], ?_⟩
  intro t _
  exact Or.inr (by norm_num [noteGameEnter, nextRound, totalRounds])

/-! ### Round-index monotonicity (every game) -/

lemma noteGameStep_round_mono (e : NoteGameEvent) (s : NoteGameState) :
    s.currentRound ≤ (noteGameStep e s).currentRound := by
  cases e <;> unfold noteGameStep handleGameKeyClick nextRound <;> (try dsimp only) <;>
    (repeat' split) <;> (try dsimp only) <;> omega

lemma chordGameStep_round_mono (e : ChordGameEvent) (s : ChordGameState) :
    s.chordRound ≤ (chordGameStep e s).chordRound := by
  cases e <;> unfold chordGameStep handleChordKeyClick checkChord nextChordRound <;>
    (try dsimp only) <;> (repeat' split) <;> (try dsimp only) <;> omega

lemma scaleGameStep_round_mono (e : ScaleGameEvent) (s : ScaleGameState) :
    s.scaleRound ≤ (scaleGameStep e s).scaleRound := by
  cases e <;> unfold scaleGameStep handleScaleKeyClick nextScaleRound <;>
    (try dsimp only) <;> (repeat' split) <;> (try dsimp only) <;> omega

lemma intervalGameStep_round_mono (e : IntervalGameEvent) (s : IntervalGameState) :
    s.intervalRound ≤ (intervalGameStep e s).intervalRound := by
  cases e <;> unfold intervalGameStep handleIntervalKeyClick nextIntervalRound <;>
    (try dsimp only) <;> (repeat' split) <;> (try dsimp only) <;> omega

lemma timeGameStep_round_mono (e : TimeGameEvent) (s : TimeGameState) :
    s.timeRound ≤ (timeGameStep e s).timeRound := by
  cases e <;> unfold timeGameStep handleTimeNoteClick nextTimeRound <;>
    (try dsimp only) <;> (repeat' split) <;> (try dsimp only) <;> omega

/-! ### Score-vs-round invariants for the chord and time games -/

/-- Chord-builder invariant: the score never exceeds the round index. -/
def chordGameInv (s : ChordGameState) : Prop := s.chordScore ≤ s.chordRound

lemma chordGameInv_step (e : ChordGameEvent) (s : ChordGameState)
    (h : chordGameInv s) : chordGameInv (chordGameStep e s) := by
  unfold chordGameInv at h ⊢
  cases e <;> unfold chordGameStep handleChordKeyClick checkChord nextChordRound <;>
    (try dsimp only) <;> (repeat' split) <;> (try dsimp only) <;> omega

lemma chordGameInv_run (s : ChordGameState) (evs : List ChordGameEvent)
    (h : chordGameInv s) : chordGameInv (chordGameRun s evs) := by
  induction evs generalizing s with
  | nil => exact h
  | cons e evs ih => exact ih _ (chordGameInv_step e s h)

/-- Time-game invariant: the score mirrors the round index. -/
def timeGameInv (s : TimeGameState) : Prop := s.timeScore = s.timeRound

lemma timeGameInv_step (e : TimeGameEvent) (s : TimeGameState)
    (h : timeGameInv s) : timeGameInv (timeGameStep e s) := by
  unfold timeGameInv at h ⊢
  cases e <;> unfold timeGameStep handleTimeNoteClick nextTimeRound <;>
    (try dsimp only) <;> (repeat' split) <;> (try dsimp only) <;> omega

lemma timeGameInv_run (s : TimeGameState) (evs : List TimeGameEvent)
    (h : timeGameInv s) : timeGameInv (timeGameRun s evs) := by
  induction evs generalizing s with
  | nil => exact h
  | cons e evs ih => exact ih _ (timeGameInv_step e s h)

/-! ### Scale game invariant -/

/-- Catalog facts behind claim C3: every scale has at least two notes, and its
first and last entries coincide. -/
lemma scaleAt_facts (sc : Fin 3) :
    2 ≤ (scaleAt sc).notes.length ∧
      (scaleAt sc).notes.get? 0 = some (scaleAt sc).notes.headI ∧
      (scaleAt sc).notes.get? ((scaleAt sc).notes.length - 1) =
        some (scaleAt sc).notes.headI := by
  revert sc
  decide

/-- Scale-practice invariant: the score and round index stay at zero, and
whenever a scale is current the position is strictly below the sequence
length; once the position is positive, the key carrying the scale's first
note name is already marked correct. -/
def scaleGameInv (s : ScaleGameState) : Prop :=
  s.scaleScore = 0 ∧ s.scaleRound = 0 ∧
    ∀ sc : Fin 3, s.currentScale = some sc →
      s.scaleIndex < (scaleAt sc).notes.length ∧
        (0 < s.scaleIndex →
          ∀ k : Fin 7, (noteAt k).name = (scaleAt sc).notes.headI → k ∈ s.correctKeys)

lemma scaleGameInv_step (e : ScaleGameEvent) (s : ScaleGameState)
    (h : scaleGameInv s) : scaleGameInv (scaleGameStep e s) := by
  obtain ⟨hs0, hr0, hcur⟩ := h
  cases e with
  | keyClick k =>
    show scaleGameInv (handleScaleKeyClick k s)
    unfold handleScaleKeyClick
    cases hcn : s.currentScale with
    | none => exact ⟨hs0, hr0, hcur⟩
    | some sc =>
      dsimp only
      obtain ⟨hlen2, hget0, hgetlast⟩ := scaleAt_facts sc
      obtain ⟨hidx, hmark⟩ := hcur sc hcn
      split
      · exact ⟨hs0, hr0, hcur⟩
      next hckey =>
        split
        next hexp =>
          have hnotlast : s.scaleIndex + 1 < (scaleAt sc).notes.length := by
            rcases Nat.lt_or_ge (s.scaleIndex + 1) (scaleAt sc).notes.length with hlt | hge
            · exact hlt
            · exfalso
              have heq : s.scaleIndex = (scaleAt sc).notes.length - 1 := by omega
              rw [heq, hgetlast] at hexp
              have hname : (noteAt k).name = (scaleAt sc).notes.headI := by
                injection hexp with h1
                exact h1.symm
              have hpos : 0 < s.scaleIndex := by omega
              exact hckey (hmark hpos k hname)
          split
          next hge =>
            exfalso
            try dsimp only at hge
            omega
          · refine ⟨hs0, hr0, ?_⟩
            intro sc' hsc'
            dsimp only at hsc' ⊢
            obtain rfl : sc = sc' := by injection hsc'
            refine ⟨by omega, ?_⟩
            intro _ k' hk'
            rcases Nat.eq_zero_or_pos s.scaleIndex with hz | hpos
            · rw [hz, hget0] at hexp
              have hkname : (noteAt k).name = (scaleAt sc).notes.headI := by
                injection hexp with h1
                exact h1.symm
              have : k' = k := noteAt_name_inj _ _ (hk'.trans hkname.symm)
              exact Finset.mem_insert.mpr (Or.inl this)
            · exact Finset.mem_insert.mpr (Or.inr (hmark hpos k' hk'))
        · refine ⟨hs0, hr0, ?_⟩
          intro sc' hsc'
          dsimp only at hsc' ⊢
          obtain rfl : sc = sc' := by injection hsc'
          exact ⟨hidx, fun hpos k' hk' => hmark hpos k' hk'⟩
  | nextTimer pick =>
    show scaleGameInv (scaleGameStep (ScaleGameEvent.nextTimer pick) s)
    unfold scaleGameStep
    dsimp only
    split
    · exact ⟨hs0, hr0, hcur⟩
    · unfold nextScaleRound
      dsimp only
      split
      next hge =>
        exfalso
        try dsimp only at hge
        rw [hr0] at hge
        exact absurd hge (by norm_num [scaleTotalRounds])
      · refine ⟨hs0, hr0, ?_⟩
        intro sc' hsc'
        dsimp only at hsc' ⊢
        obtain rfl : pick = sc' := by injection hsc'
        obtain ⟨hlen2, -, -⟩ := scaleAt_facts pick
        exact ⟨by omega, fun hpos => absurd hpos (by omega)⟩
  | wrongTimer =>
    show scaleGameInv (scaleGameStep ScaleGameEvent.wrongTimer s)
    unfold scaleGameStep
    dsimp only
    cases s.pendingWrongClear with
    | nil => exact ⟨hs0, hr0, hcur⟩
    | cons k rest =>
      refine ⟨hs0, hr0, ?_⟩
      intro sc' hsc'
      dsimp only at hsc' ⊢
      exact hcur sc' hsc'

lemma scaleGameInv_run (s : ScaleGameState) (evs : List ScaleGameEvent)
    (h : scaleGameInv s) : scaleGameInv (scaleGameRun s evs) := by
  induction evs generalizing s with
  | nil => exact h
  | cons e evs ih => exact ih _ (scaleGameInv_step e s h)

lemma scaleGameInv_enter (pick : Fin 3) : scaleGameInv (scaleGameEnter pick) := by
  refine ⟨rfl, rfl, ?_⟩
  intro sc hsc
  obtain ⟨hlen2, -, -⟩ := scaleAt_facts sc
  refine ⟨?_, ?_⟩
  · show (scaleGameEnter pick).scaleIndex < _
    norm_num [scaleGameEnter, nextScaleRound, scaleTotalRounds]
    omega
  · intro hpos
    exact absurd hpos (by norm_num [scaleGameEnter, nextScaleRound, scaleTotalRounds])

/-! ### Interval game invariant -/

/-- Interval-trainer invariant: the score mirrors the round index, the round
index never exceeds the limit, and any current target was accepted by the
rejection sampler — its root is a catalog note whose index plus the interval's
steps stays inside the 7-note catalog — and once the round index has reached
the limit the expected answer key is already marked correct. -/
def intervalGameInv (s : IntervalGameState) : Prop :=
  s.intervalScore = s.intervalRound ∧ s.intervalRound ≤ intervalTotalRounds ∧
    ∀ root io, s.intervalRoot = some root → s.currentIntervalObj = some io →
      ∃ ri : Fin 7, ∃ hri : ri.val + (intervalAt io).steps < 7,
        root = noteAt ri ∧
          ((⟨ri.val + (intervalAt io).steps, hri⟩ : Fin 7) ∈ s.correctKeys ∨
            s.intervalRound < intervalTotalRounds)

lemma intervalGameInv_next (draws : List (Fin 7 × Fin 6)) (s : IntervalGameState)
    (h : intervalGameInv s) : intervalGameInv (nextIntervalRound draws s) := by
  obtain ⟨hsc, hle, htar⟩ := h
  unfold nextIntervalRound
  split
  · exact ⟨hsc, hle, htar⟩
  next hlt =>
    dsimp only
    cases hpv : pickValid draws with
    | none =>
      refine ⟨hsc, hle, ?_⟩
      intro root io h1 h2
      dsimp only at h1 h2 ⊢
      obtain ⟨ri, hri, hroot, -⟩ := htar root io h1 h2
      exact ⟨ri, hri, hroot, Or.inr (by omega)⟩
    | some p =>
      refine ⟨hsc, hle, ?_⟩
      intro root io h1 h2
      dsimp only at h1 h2 ⊢
      obtain rfl : noteAt p.1 = root := by injection h1
      obtain rfl : p.2 = io := by injection h2
      have hvalid := List.find?_some hpv
      have hlt7 : p.1.val + (intervalAt p.2).steps < 7 := by
        simpa using of_decide_eq_true hvalid
      exact ⟨p.1, hlt7, rfl, Or.inr (by omega)⟩

lemma intervalGameInv_step (e : IntervalGameEvent) (s : IntervalGameState)
    (h : intervalGameInv s) : intervalGameInv (intervalGameStep e s) := by
  obtain ⟨hsc, hle, htar⟩ := h
  cases e with
  | keyClick k =>
    show intervalGameInv (handleIntervalKeyClick k s)
    unfold handleIntervalKeyClick
    cases hroot : s.intervalRoot with
    | none => exact ⟨hsc, hle, htar⟩
    | some root =>
      cases hobj : s.currentIntervalObj with
      | none => exact ⟨hsc, hle, htar⟩
      | some io =>
        dsimp only
        obtain ⟨ri, hri, rfl, hdisj⟩ := htar root io hroot hobj
        split
        · exact ⟨hsc, hle, htar⟩
        next hsel =>
          have hfind : NOTES.findIdx (fun n => n.name == (noteAt ri).name) = ri.val :=
            findIdx_noteAt ri
          rw [hfind]
          have hlen : ri.val + (intervalAt io).steps < NOTES.length := hri
          have hget : NOTES.get? (ri.val + (intervalAt io).steps) =
              some (noteAt ⟨ri.val + (intervalAt io).steps, hri⟩) :=
            List.get?_eq_get hlen
          rw [hget]
          dsimp only
          set ek : Fin 7 := ⟨ri.val + (intervalAt io).steps, hri⟩ with hek
          split
          next hname =>
            have hkek : k = ek := noteAt_name_inj _ _ hname
            have hlt : s.intervalRound < intervalTotalRounds := by
              rcases hdisj with hmem | hlt
              · exact absurd (Or.inl (by rw [hkek]; exact hmem)) hsel
              · exact hlt
            refine ⟨by dsimp only; omega, by dsimp only; omega, ?_⟩
            intro root' io' h1 h2
            dsimp only at h1 h2 ⊢
            obtain rfl : noteAt ri = root' := by injection h1
            obtain rfl : io = io' := by injection h2
            exact ⟨ri, hri, rfl, Or.inl (Finset.mem_insert.mpr (Or.inl hkek.symm))⟩
          · refine ⟨hsc, hle, ?_⟩
            intro root' io' h1 h2
            dsimp only at h1 h2 ⊢
            obtain rfl : noteAt ri = root' := by injection h1
            obtain rfl : io = io' := by injection h2
            exact ⟨ri, hri, rfl, hdisj⟩
  | nextTimer draws =>
    show intervalGameInv (intervalGameStep (IntervalGameEvent.nextTimer draws) s)
    unfold intervalGameStep
    dsimp only
    split
    · exact ⟨hsc, hle, htar⟩
    · exact intervalGameInv_next draws _ ⟨hsc, hle, htar⟩
  | wrongTimer =>
    show intervalGameInv (intervalGameStep IntervalGameEvent.wrongTimer s)
    unfold intervalGameStep
    dsimp only
    cases s.pendingWrongClear with
    | nil => exact ⟨hsc, hle, htar⟩
    | cons k rest =>
      refine ⟨hsc, hle, ?_⟩
      intro root io h1 h2
      dsimp only at h1 h2 ⊢
      exact htar root io h1 h2

lemma intervalGameInv_run (s : IntervalGameState) (evs : List IntervalGameEvent)
    (h : intervalGameInv s) : intervalGameInv (intervalGameRun s evs) := by
  induction evs generalizing s with
  | nil => exact h
  | cons e evs ih => exact ih _ (intervalGameInv_step e s h)

lemma intervalGameInv_enter (draws : List (Fin 7 × Fin 6)) :
    intervalGameInv (intervalGameEnter draws) := by
  refine intervalGameInv_next draws _ ⟨rfl, by norm_num [intervalTotalRounds], ?_⟩
  intro root io h1 _
  exact absurd h1 (by simp)

/-! ### Chord-judgement helpers -/

lemma asString_inj (l₁ l₂ : List Char) (h : l₁.asString = l₂.asString) : l₁ = l₂ :=
  congrArg String.data h

/-- The sort-and-join comparison of the `check-chord` listener is exactly
order-independent set equality, for duplicate-free selections and chords. -/
lemma chordJudge_iff (sel : List Char) (c : Chord)
    (hsel : sel.Nodup) (hc : c.notes.Nodup) :
    chordJudge sel c = true ↔ ∀ ch : Char, ch ∈ sel ↔ ch ∈ c.notes := by
  unfold chordJudge
  rw [decide_eq_true_iff]
  constructor
  · intro h ch
    have hl : sel.insertionSort (· ≤ ·) = c.notes.insertionSort (· ≤ ·) :=
      asString_inj _ _ h
    have hperm : sel.Perm c.notes :=
      ((List.perm_insertionSort (· ≤ ·) sel).symm.trans
        (hl ▸ List.perm_insertionSort (· ≤ ·) c.notes))
    exact ⟨fun hm => hperm.mem_iff.mp hm, fun hm => hperm.mem_iff.mpr hm⟩
  · intro h
    have hperm : sel.Perm c.notes := (List.perm_ext_iff_of_nodup hsel hc).mpr h
    have hsorted : sel.insertionSort (· ≤ ·) = c.notes.insertionSort (· ≤ ·) :=
      List.eq_of_perm_of_sorted
        ((List.perm_insertionSort (· ≤ ·) sel).trans
          (hperm.trans (List.perm_insertionSort (· ≤ ·) c.notes).symm))
        (List.sorted_insertionSort (· ≤ ·) sel)
        (List.sorted_insertionSort (· ≤ ·) c.notes)
    rw [hsorted]

/-- Every chord in the catalog has duplicate-free notes. -/
lemma chordAt_nodup (c : Fin 6) : (chordAt c).notes.Nodup := by
  revert c
  decide

/-- Chord-builder selection invariant: `selectedNotes` never holds
duplicates (a click adds a name only when it is absent). -/
def chordSelInv (s : ChordGameState) : Prop := s.selectedNotes.Nodup

lemma chordSelInv_step (e : ChordGameEvent) (s : ChordGameState)
    (h : chordSelInv s) : chordSelInv (chordGameStep e s) := by
  unfold chordSelInv at h ⊢
  cases e with
  | keyClick k =>
    show ((handleChordKeyClick k s).selectedNotes).Nodup
    unfold handleChordKeyClick
    dsimp only
    split
    · exact h.erase _
    next hmem =>
      simp [List.nodup_append, h, hmem]
  | checkClick =>
    show ((checkChord s).selectedNotes).Nodup
    unfold checkChord
    cases s.currentChord with
    | none => exact h
    | some c =>
      dsimp only
      split <;> exact h
  | nextTimer pick =>
    show ((chordGameStep (ChordGameEvent.nextTimer pick) s).selectedNotes).Nodup
    unfold chordGameStep nextChordRound
    dsimp only
    split
    · exact h
    · split
      · exact h
      · exact List.nodup_nil

lemma chordSelInv_run (s : ChordGameState) (evs : List ChordGameEvent)
    (h : chordSelInv s) : chordSelInv (chordGameRun s evs) := by
  induction evs generalizing s with
  | nil => exact h
  | cons e evs ih => exact ih _ (chordSelInv_step e s h)

lemma chordSelInv_enter (pick : Fin 6) : chordSelInv (chordGameEnter pick) := by
  unfold chordSelInv chordGameEnter nextChordRound
  split <;> exact List.nodup_nil

lemma chordGameInv_enter (pick : Fin 6) : chordGameInv (chordGameEnter pick) := by
  show (chordGameEnter pick).chordScore ≤ (chordGameEnter pick).chordRound
  unfold chordGameEnter nextChordRound
  split <;> exact Nat.le_refl _

lemma timeGameInv_enter (pick : Fin 3) : timeGameInv (timeGameEnter pick) := by
  show (timeGameEnter pick).timeScore = (timeGameEnter pick).timeRound
  unfold timeGameEnter nextTimeRound
  split <;> rfl

lemma noteGameEnter_inv (pick : Fin 7) : noteGameInv (noteGameEnter pick) :=
  noteGameInv_enter pick

/-! ### Claim theorems -/

/-- Claim C2 (counterexample): the round index does not stay within the round
limit in every mini-game — in the chord builder, six clicks of the Check
button right after entering drive `chordRound` to 6, strictly above the limit
`chordTotalRounds = 5`, because the completion test lives only in
`nextChordRound` and `currentChord` is never cleared. -/
theorem C2_counterexample :
    (chordGameRun (chordGameEnter 0)
        (List.replicate 6 ChordGameEvent.checkClick)).chordRound
      > chordTotalRounds := by
  decide

/-- Claim C2 (amended): in every mini-game the round index is monotonically
non-decreasing under every event and the score always lies in [0, round
index]; the round index stays within [0, round limit] in the note-match,
scale-practice, and interval-trainer games, but in the chord-builder and
time-signature games submissions after the session has resolved can push it
past the limit. -/
theorem C2_amended :
    (∀ (e : NoteGameEvent) (s : NoteGameState),
      s.currentRound ≤ (noteGameStep e s).currentRound) ∧
    (∀ (e : ChordGameEvent) (s : ChordGameState),
      s.chordRound ≤ (chordGameStep e s).chordRound) ∧
    (∀ (e : ScaleGameEvent) (s : ScaleGameState),
      s.scaleRound ≤ (scaleGameStep e s).scaleRound) ∧
    (∀ (e : IntervalGameEvent) (s : IntervalGameState),
      s.intervalRound ≤ (intervalGameStep e s).intervalRound) ∧
    (∀ (e : TimeGameEvent) (s : TimeGameState),
      s.timeRound ≤ (timeGameStep e s).timeRound) ∧
    (∀ (pick : Fin 7) (evs : List NoteGameEvent),
      (noteGameRun (noteGameEnter pick) evs).score =
        (noteGameRun (noteGameEnter pick) evs).currentRound ∧
      (noteGameRun (noteGameEnter pick) evs).currentRound ≤ totalRounds) ∧
    (∀ (pick : Fin 6) (evs : List ChordGameEvent),
      (chordGameRun (chordGameEnter pick) evs).chordScore ≤
        (chordGameRun (chordGameEnter pick) evs).chordRound) ∧
    (∀ (pick : Fin 3) (evs : List ScaleGameEvent),
      (scaleGameRun (scaleGameEnter pick) evs).scaleScore ≤
        (scaleGameRun (scaleGameEnter pick) evs).scaleRound ∧
      (scaleGameRun (scaleGameEnter pick) evs).scaleRound ≤ scaleTotalRounds) ∧
    (∀ (draws : List (Fin 7 × Fin 6)) (evs : List IntervalGameEvent),
      (intervalGameRun (intervalGameEnter draws) evs).intervalScore =
        (intervalGameRun (intervalGameEnter draws) evs).intervalRound ∧
      (intervalGameRun (intervalGameEnter draws) evs).intervalRound ≤
        intervalTotalRounds) ∧
    (∀ (pick : Fin 3) (evs : List TimeGameEvent),
      (timeGameRun (timeGameEnter pick) evs).timeScore =
        (timeGameRun (timeGameEnter pick) evs).timeRound) := by
  refine ⟨noteGameStep_round_mono, chordGameStep_round_mono, scaleGameStep_round_mono,
    intervalGameStep_round_mono, timeGameStep_round_mono, ?_, ?_, ?_, ?_, ?_⟩
  · intro pick evs
    obtain ⟨h1, h2, -⟩ := noteGameInv_run _ evs (noteGameEnter_inv pick)
    exact ⟨h1, h2⟩
  · intro pick evs
    exact chordGameInv_run _ evs (chordGameInv_enter pick)
  · intro pick evs
    obtain ⟨h1, h2, -⟩ := scaleGameInv_run _ evs (scaleGameInv_enter pick)
    rw [h1, h2]
    exact ⟨Nat.le_refl 0, by norm_num [scaleTotalRounds]⟩
  · intro draws evs
    obtain ⟨h1, h2, -⟩ := intervalGameInv_run _ evs (intervalGameInv_enter draws)
    exact ⟨h1, h2⟩
  · intro pick evs
    exact timeGameInv_run _ evs (timeGameInv_enter pick)

/-- Claim C3 (confirmed): every scale in the catalog ends on the note it
starts with, and clicks on a key already marked correct are ignored; as a
consequence, after entering scale practice, for every sequence of events the
position `scaleIndex` never reaches the length of the current scale (so the
completion branch never runs) and `scaleScore` and `scaleRound` remain 0
forever — no scale round can ever complete. -/
theorem C3_scale_rounds_never_complete :
    (∀ sc : Fin 3,
      (scaleAt sc).notes.get? ((scaleAt sc).notes.length - 1) =
        some (scaleAt sc).notes.headI) ∧
    (∀ (s : ScaleGameState) (k : Fin 7), k ∈ s.correctKeys →
      handleScaleKeyClick k s = s) ∧
    ∀ (pick : Fin 3) (evs : List ScaleGameEvent),
      (scaleGameRun (scaleGameEnter pick) evs).scaleScore = 0 ∧
      (scaleGameRun (scaleGameEnter pick) evs).scaleRound = 0 ∧
      ∀ sc : Fin 3,
        (scaleGameRun (scaleGameEnter pick) evs).currentScale = some sc →
        (scaleGameRun (scaleGameEnter pick) evs).scaleIndex <
          (scaleAt sc).notes.length := by
  refine ⟨fun sc => (scaleAt_facts sc).2.2, ?_, ?_⟩
  · intro s k hk
    unfold handleScaleKeyClick
    cases s.currentScale with
    | none => rfl
    | some sc =>
      dsimp only
      rw [if_pos hk]
  · intro pick evs
    obtain ⟨h1, h2, h3⟩ := scaleGameInv_run _ evs (scaleGameInv_enter pick)
    exact ⟨h1, h2, fun sc hsc => (h3 sc hsc).1⟩

/-- Claim C3 witness: instantiating the theorem at the concrete entry state
(C-major scale drawn) and at a state whose C key is already marked correct. -/
theorem C3_witness :
    (scaleGameRun (scaleGameEnter 0) []).scaleScore = 0 ∧
    (scaleGameRun (scaleGameEnter 0) []).currentScale = some 0 ∧
    (scaleGameRun (scaleGameEnter 0) []).scaleIndex < (scaleAt 0).notes.length ∧
    (0 : Fin 7) ∈ (scaleGameRun (scaleGameEnter 0)
        [ScaleGameEvent.keyClick 0]).correctKeys ∧
    handleScaleKeyClick 0 (scaleGameRun (scaleGameEnter 0)
        [ScaleGameEvent.keyClick 0]) =
      scaleGameRun (scaleGameEnter 0) [ScaleGameEvent.keyClick 0] :=
  ⟨(C3_scale_rounds_never_complete.2.2 0 []).1,
   by decide,
   (C3_scale_rounds_never_complete.2.2 0 []).2.2 0 (by decide),
   by decide,
   C3_scale_rounds_never_complete.2.1 _ 0 (by decide)⟩

/-- Claim C1 (counterexample): in the chord builder an incorrect submission
does not leave the round index unchanged — after entering (target C major)
and selecting only {C, E}, the Check click is judged incorrect yet increments
`chordRound` from 0 to 1 (so a new target is drawn for the next round). -/
theorem C1_counterexample :
    (chordGameRun (chordGameEnter 0)
        [ChordGameEvent.keyClick 0, ChordGameEvent.keyClick 2]).chordRound = 0 ∧
    chordJudge (chordGameRun (chordGameEnter 0)
        [ChordGameEvent.keyClick 0, ChordGameEvent.keyClick 2]).selectedNotes
      (chordAt 0) = false ∧
    (chordGameRun (chordGameEnter 0)
        [ChordGameEvent.keyClick 0, ChordGameEvent.keyClick 2,
         ChordGameEvent.checkClick]).chordRound = 1 := by
  decide

/-- Claim C1 (amended): in the note-match, scale-practice, interval-trainer
and time-signature games an answer judged incorrect leaves the round index,
the score and the current target unchanged (the same target is kept, no new
one is drawn); in the chord builder an incorrect explicit check leaves
`chordScore` unchanged and changes the feedback, but increments `chordRound`
and schedules `nextChordRound`, which draws a new target. -/
theorem C1_amended :
    (∀ (s : NoteGameState) (k t : Fin 7), s.currentNote = some t →
      ¬(k ∈ s.correctKeys ∨ k ∈ s.wrongKeys) →
      (noteAt k).name ≠ (noteAt t).name →
      (handleGameKeyClick k s).currentRound = s.currentRound ∧
      (handleGameKeyClick k s).score = s.score ∧
      (handleGameKeyClick k s).currentNote = s.currentNote) ∧
    (∀ (s : ScaleGameState) (k : Fin 7) (sc : Fin 3), s.currentScale = some sc →
      k ∉ s.correctKeys →
      (scaleAt sc).notes.get? s.scaleIndex ≠ some (noteAt k).name →
      (handleScaleKeyClick k s).scaleRound = s.scaleRound ∧
      (handleScaleKeyClick k s).scaleScore = s.scaleScore ∧
      (handleScaleKeyClick k s).scaleIndex = s.scaleIndex ∧
      (handleScaleKeyClick k s).currentScale = s.currentScale) ∧
    (∀ (s : IntervalGameState) (k : Fin 7) (root : Note) (io : Fin 6)
      (exp : Note), s.intervalRoot = some root → s.currentIntervalObj = some io →
      ¬(k ∈ s.correctKeys ∨ k ∈ s.wrongKeys) →
      NOTES.get? (NOTES.findIdx (fun n => n.name == root.name) +
        (intervalAt io).steps) = some exp →
      (noteAt k).name ≠ exp.name →
      (handleIntervalKeyClick k s).intervalRound = s.intervalRound ∧
      (handleIntervalKeyClick k s).intervalScore = s.intervalScore ∧
      (handleIntervalKeyClick k s).intervalRoot = s.intervalRoot ∧
      (handleIntervalKeyClick k s).currentIntervalObj = s.currentIntervalObj) ∧
    (∀ (s : TimeGameState) (v : ℚ) (sig : Fin 3), s.currentTimeSig = some sig →
      ¬(|jsRound2 (s.currentMeasureTotal + v) - ((timeSigAt sig).beats : ℚ)| <
        1 / 1000) →
      (handleTimeNoteClick v s).timeRound = s.timeRound ∧
      (handleTimeNoteClick v s).timeScore = s.timeScore ∧
      (handleTimeNoteClick v s).currentTimeSig = s.currentTimeSig) ∧
    (∀ (s : ChordGameState) (c : Fin 6), s.currentChord = some c →
      chordJudge s.selectedNotes (chordAt c) = false →
      (checkChord s).chordScore = s.chordScore ∧
      (checkChord s).chordRound = s.chordRound + 1 ∧
      (checkChord s).pendingNext = s.pendingNext + 1) := by
  refine ⟨?_, ?_, ?_, ?_, ?_⟩
  · intro s k t hcn hguard hname
    unfold handleGameKeyClick
    rw [hcn]
    dsimp only
    rw [if_neg hguard, if_neg hname]
    exact ⟨rfl, rfl, rfl⟩
  · intro s k sc hcn hguard hexp
    unfold handleScaleKeyClick
    rw [hcn]
    dsimp only
    rw [if_neg hguard, if_neg hexp]
    exact ⟨rfl, rfl, rfl, rfl⟩
  · intro s k root io exp hroot hobj hguard hget hname
    unfold handleIntervalKeyClick
    rw [hroot, hobj]
    dsimp only
    rw [if_neg hguard, hget]
    dsimp only
    rw [if_neg hname]
    exact ⟨rfl, rfl, rfl, rfl⟩
  · intro s v sig hsig heps
    unfold handleTimeNoteClick
    rw [hsig]
    dsimp only
    rw [if_neg heps]
    split <;> exact ⟨rfl, rfl, rfl⟩
  · intro s c hcn hjudge
    unfold checkChord
    rw [hcn]
    dsimp only
    rw [hjudge]
    exact ⟨rfl, rfl, rfl⟩

/-- Claim C1 witness: the amended statement instantiated at concrete wrong
answers in each game. -/
theorem C1_witness :
    (handleGameKeyClick 1 (noteGameEnter 0)).currentRound =
      (noteGameEnter 0).currentRound ∧
    (handleScaleKeyClick 3 (scaleGameEnter 0)).scaleRound =
      (scaleGameEnter 0).scaleRound ∧
    (handleIntervalKeyClick 4 (intervalGameEnter [(0, 2)])).intervalRound =
      (intervalGameEnter [(0, 2)]).intervalRound ∧
    (handleTimeNoteClick 4 (timeGameEnter 1)).timeRound =
      (timeGameEnter 1).timeRound ∧
    (checkChord (chordGameEnter 0)).chordScore = (chordGameEnter 0).chordScore :=
  ⟨(C1_amended.1 (noteGameEnter 0) 1 0 (by decide) (by decide) (by decide)).1,
   (C1_amended.2.1 (scaleGameEnter 0) 3 0 (by decide) (by decide) (by decide)).1,
   (C1_amended.2.2.1 (intervalGameEnter [(0, 2)]) 4 (noteAt 0) 2 (noteAt 3)
      rfl rfl (by decide) rfl (by decide)).1,
   (C1_amended.2.2.2.1 (timeGameEnter 1) 4 1 (by decide)
      (by norm_num [jsRound2, timeGameEnter, nextTimeRound, timeSigAt, TIME_SIGS,
        timeTotalRounds])).1,
   (C1_amended.2.2.2.2 (chordGameEnter 0) 0 (by decide) (by decide)).1⟩

/-- Claim C4 (counterexample): a submission after a round has resolved is not
a no-op in every game — in the chord builder, after correctly building C major
and checking (round resolved, score 1, round 1), a second Check click while
the resolved state is still displayed increments both again; and after the
whole session has resolved (round = 5, completion message shown), a further
Check still drives the round index to 6. -/
theorem C4_counterexample :
    (chordGameRun (chordGameEnter 0)
        [ChordGameEvent.keyClick 0, ChordGameEvent.keyClick 2,
         ChordGameEvent.keyClick 4, ChordGameEvent.checkClick]).chordScore = 1 ∧
    (chordGameRun (chordGameEnter 0)
        [ChordGameEvent.keyClick 0, ChordGameEvent.keyClick 2,
         ChordGameEvent.keyClick 4, ChordGameEvent.checkClick]).chordRound = 1 ∧
    (chordGameRun (chordGameEnter 0)
        [ChordGameEvent.keyClick 0, ChordGameEvent.keyClick 2,
         ChordGameEvent.keyClick 4, ChordGameEvent.checkClick,
         ChordGameEvent.checkClick]).chordScore = 2 ∧
    (chordGameRun (chordGameEnter 0)
        [ChordGameEvent.keyClick 0, ChordGameEvent.keyClick 2,
         ChordGameEvent.keyClick 4, ChordGameEvent.checkClick,
         ChordGameEvent.checkClick]).chordRound = 2 ∧
    (chordGameRun (chordGameEnter 0)
        (List.replicate 5 ChordGameEvent.checkClick ++
          [ChordGameEvent.nextTimer 0])).chordRound = 5 ∧
    (chordGameRun (chordGameEnter 0)
        (List.replicate 5 ChordGameEvent.checkClick ++
          [ChordGameEvent.nextTimer 0, ChordGameEvent.checkClick])).chordRound = 6 := by
  decide

/-- Claim C4 (amended): in every mini-game, submitting with no target set is a
strict no-op; in the note-match and interval-trainer games, once the round
index has reached the round limit no key click changes score, round index or
target, and in scale practice no key click ever changes score or round index;
but in the chord-builder and time-signature games submissions after the
session has resolved can still change score and round index (see the
counterexample). -/
theorem C4_amended :
    (∀ (s : NoteGameState) (k : Fin 7), s.currentNote = none →
      handleGameKeyClick k s = s) ∧
    (∀ (s : ChordGameState), s.currentChord = none → checkChord s = s) ∧
    (∀ (s : ScaleGameState) (k : Fin 7), s.currentScale = none →
      handleScaleKeyClick k s = s) ∧
    (∀ (s : IntervalGameState) (k : Fin 7),
      s.intervalRoot = none ∨ s.currentIntervalObj = none →
      handleIntervalKeyClick k s = s) ∧
    (∀ (s : TimeGameState) (v : ℚ), s.currentTimeSig = none →
      handleTimeNoteClick v s = s) ∧
    (∀ (pick : Fin 7) (evs : List NoteGameEvent) (k : Fin 7),
      (noteGameRun (noteGameEnter pick) evs).currentRound ≥ totalRounds →
      (handleGameKeyClick k (noteGameRun (noteGameEnter pick) evs)).score =
        (noteGameRun (noteGameEnter pick) evs).score ∧
      (handleGameKeyClick k (noteGameRun (noteGameEnter pick) evs)).currentRound =
        (noteGameRun (noteGameEnter pick) evs).currentRound ∧
      (handleGameKeyClick k (noteGameRun (noteGameEnter pick) evs)).currentNote =
        (noteGameRun (noteGameEnter pick) evs).currentNote) ∧
    (∀ (draws : List (Fin 7 × Fin 6)) (evs : List IntervalGameEvent) (k : Fin 7),
      (intervalGameRun (intervalGameEnter draws) evs).intervalRound ≥
        intervalTotalRounds →
      (handleIntervalKeyClick k
          (intervalGameRun (intervalGameEnter draws) evs)).intervalScore =
        (intervalGameRun (intervalGameEnter draws) evs).intervalScore ∧
      (handleIntervalKeyClick k
          (intervalGameRun (intervalGameEnter draws) evs)).intervalRound =
        (intervalGameRun (intervalGameEnter draws) evs).intervalRound ∧
      (handleIntervalKeyClick k
          (intervalGameRun (intervalGameEnter draws) evs)).intervalRoot =
        (intervalGameRun (intervalGameEnter draws) evs).intervalRoot ∧
      (handleIntervalKeyClick k
          (intervalGameRun (intervalGameEnter draws) evs)).currentIntervalObj =
        (intervalGameRun (intervalGameEnter draws) evs).currentIntervalObj) ∧
    (∀ (pick : Fin 3) (evs : List ScaleGameEvent) (k : Fin 7),
      (handleScaleKeyClick k (scaleGameRun (scaleGameEnter pick) evs)).scaleScore =
        (scaleGameRun (scaleGameEnter pick) evs).scaleScore ∧
      (handleScaleKeyClick k (scaleGameRun (scaleGameEnter pick) evs)).scaleRound =
        (scaleGameRun (scaleGameEnter pick) evs).scaleRound) := by
  refine ⟨?_, ?_, ?_, ?_, ?_, ?_, ?_, ?_⟩
  · intro s k h
    unfold handleGameKeyClick
    rw [h]
  · intro s h
    unfold checkChord
    rw [h]
  · intro s k h
    unfold handleScaleKeyClick
    rw [h]
  · intro s k h
    unfold handleIntervalKeyClick
    rcases h with h | h
    · rw [h]
    · rw [h]
      cases s.intervalRoot <;> rfl
  · intro s v h
    unfold handleTimeNoteClick
    rw [h]
  · intro pick evs k hlim
    obtain ⟨-, -, hmark⟩ := noteGameInv_run _ evs (noteGameEnter_inv pick)
    unfold handleGameKeyClick
    cases hcn : (noteGameRun (noteGameEnter pick) evs).currentNote with
    | none =>
      dsimp only
      exact ⟨rfl, rfl, hcn⟩
    | some t =>
      dsimp only
      have hmem : t ∈ (noteGameRun (noteGameEnter pick) evs).correctKeys := by
        rcases hmark t hcn with hm | hlt
        · exact hm
        · omega
      by_cases hguard : k ∈ (noteGameRun (noteGameEnter pick) evs).correctKeys ∨
          k ∈ (noteGameRun (noteGameEnter pick) evs).wrongKeys
      · rw [if_pos hguard]
        exact ⟨rfl, rfl, hcn⟩
      · rw [if_neg hguard]
        have hname : ¬((noteAt k).name = (noteAt t).name) := by
          intro he
          exact hguard (Or.inl (by rw [noteAt_name_inj k t he]; exact hmem))
        rw [if_neg hname]
        exact ⟨rfl, rfl, rfl⟩
  · intro draws evs k hlim
    obtain ⟨-, -, htar⟩ := intervalGameInv_run _ evs (intervalGameInv_enter draws)
    unfold handleIntervalKeyClick
    cases hroot : (intervalGameRun (intervalGameEnter draws) evs).intervalRoot with
    | none =>
      dsimp only
      exact ⟨rfl, rfl, hroot, rfl⟩
    | some root =>
      cases hobj : (intervalGameRun (intervalGameEnter draws) evs).currentIntervalObj with
      | none =>
        dsimp only
        exact ⟨rfl, rfl, hroot, hobj⟩
      | some io =>
        dsimp only
        obtain ⟨ri, hri, rfl, hdisj⟩ := htar root io hroot hobj
        have hmem : (⟨ri.val + (intervalAt io).steps, hri⟩ : Fin 7) ∈
            (intervalGameRun (intervalGameEnter draws) evs).correctKeys := by
          rcases hdisj with hm | hlt
          · exact hm
          · omega
        by_cases hguard : k ∈ (intervalGameRun (intervalGameEnter draws) evs).correctKeys ∨
            k ∈ (intervalGameRun (intervalGameEnter draws) evs).wrongKeys
        · rw [if_pos hguard]
          exact ⟨rfl, rfl, hroot, hobj⟩
        · rw [if_neg hguard]
          rw [findIdx_noteAt ri]
          have hlen : ri.val + (intervalAt io).steps < NOTES.length := hri
          have hget : NOTES.get? (ri.val + (intervalAt io).steps) =
              some (noteAt ⟨ri.val + (intervalAt io).steps, hri⟩) :=
            List.get?_eq_get hlen
          rw [hget]
          dsimp only
          have hname : ¬((noteAt k).name =
              (noteAt ⟨ri.val + (intervalAt io).steps, hri⟩).name) := by
            intro he
            exact hguard (Or.inl (by
              rw [noteAt_name_inj k ⟨ri.val + (intervalAt io).steps, hri⟩ he]
              exact hmem))
          rw [if_neg hname]
          exact ⟨rfl, rfl, rfl, rfl⟩
  · intro pick evs k
    obtain ⟨h1, h2, -⟩ := scaleGameInv_run _ evs (scaleGameInv_enter pick)
    obtain ⟨g1, g2, -⟩ :=
      scaleGameInv_step (ScaleGameEvent.keyClick k) _
        (scaleGameInv_run _ evs (scaleGameInv_enter pick))
    exact ⟨g1.trans h1.symm, g2.trans h2.symm⟩

/-- Claim C4 witness: the amended statement instantiated at concrete states —
empty pre-entry states for the null-target guards, and fully played-out
note-match and interval sessions (round index 5) for the at-limit no-ops. -/
theorem C4_witness :
    handleGameKeyClick 0
        ⟨0, 0, none, ∅, ∅, "", 0⟩ = ⟨0, 0, none, ∅, ∅, "", 0⟩ ∧
    checkChord ⟨0, 0, none, [], ∅, ∅, "", 0⟩ = ⟨0, 0, none, [], ∅, ∅, "", 0⟩ ∧
    handleScaleKeyClick 0 ⟨0, 0, none, 0, ∅, ∅, "", 0, []⟩ =
      ⟨0, 0, none, 0, ∅, ∅, "", 0, []⟩ ∧
    handleIntervalKeyClick 0 ⟨0, 0, none, none, ∅, ∅, "", 0, []⟩ =
      ⟨0, 0, none, none, ∅, ∅, "", 0, []⟩ ∧
    handleTimeNoteClick 1 ⟨0, 0, none, 0, "", 0, 0⟩ = ⟨0, 0, none, 0, "", 0, 0⟩ ∧
    (handleGameKeyClick 1 (noteGameRun (noteGameEnter 0)
        [NoteGameEvent.keyClick 0, NoteGameEvent.nextTimer 0,
         NoteGameEvent.keyClick 0, NoteGameEvent.nextTimer 0,
         NoteGameEvent.keyClick 0, NoteGameEvent.nextTimer 0,
         NoteGameEvent.keyClick 0, NoteGameEvent.nextTimer 0,
         NoteGameEvent.keyClick 0])).currentRound =
      (noteGameRun (noteGameEnter 0)
        [NoteGameEvent.keyClick 0, NoteGameEvent.nextTimer 0,
         NoteGameEvent.keyClick 0, NoteGameEvent.nextTimer 0,
         NoteGameEvent.keyClick 0, NoteGameEvent.nextTimer 0,
         NoteGameEvent.keyClick 0, NoteGameEvent.nextTimer 0,
         NoteGameEvent.keyClick 0]).currentRound ∧
    (handleIntervalKeyClick 2 (intervalGameRun (intervalGameEnter [(0, 0)])
        [IntervalGameEvent.keyClick 1, IntervalGameEvent.nextTimer [(0, 0)],
         IntervalGameEvent.keyClick 1, IntervalGameEvent.nextTimer [(0, 0)],
         IntervalGameEvent.keyClick 1, IntervalGameEvent.nextTimer [(0, 0)],
         IntervalGameEvent.keyClick 1, IntervalGameEvent.nextTimer [(0, 0)],
         IntervalGameEvent.keyClick 1])).intervalRound =
      (intervalGameRun (intervalGameEnter [(0, 0)])
        [IntervalGameEvent.keyClick 1, IntervalGameEvent.nextTimer [(0, 0)],
         IntervalGameEvent.keyClick 1, IntervalGameEvent.nextTimer [(0, 0)],
         IntervalGameEvent.keyClick 1, IntervalGameEvent.nextTimer [(0, 0)],
         IntervalGameEvent.keyClick 1, IntervalGameEvent.nextTimer [(0, 0)],
         IntervalGameEvent.keyClick 1]).intervalRound ∧
    (handleScaleKeyClick 5 (scaleGameRun (scaleGameEnter 0)
        [ScaleGameEvent.keyClick 0])).scaleRound =
      (scaleGameRun (scaleGameEnter 0) [ScaleGameEvent.keyClick 0]).scaleRound :=
  ⟨C4_amended.1 _ 0 rfl,
   C4_amended.2.1 _ rfl,
   C4_amended.2.2.1 _ 0 rfl,
   C4_amended.2.2.2.1 _ 0 (Or.inl rfl),
   C4_amended.2.2.2.2.1 _ 1 rfl,
   (C4_amended.2.2.2.2.2.1 0 _ 1 (by decide)).2.1,
   (C4_amended.2.2.2.2.2.2.1 [(0, 0)] _ 2 (by decide)).2.1,
   (C4_amended.2.2.2.2.2.2.2 0 _ 5).2⟩

/-- Claim C5 (confirmed): in the time-signature game every submitted beat
value is accumulated (after rounding to two decimals) into the running total;
a total within 0.001 of the target resolves the round correct, incrementing
score and round index; a total above the target leaves score and round index
unchanged and schedules a reset that zeroes the running total; a total below
the target resolves nothing. Concretely, for target 3/4: 1+1+1 resolves
correct, and 1+1+2 reaches 4, leaves `timeRound` at 0, and the scheduled
reset returns the total to 0. -/
theorem C5_time_accumulation :
    (∀ (s : TimeGameState) (v : ℚ) (sig : Fin 3), s.currentTimeSig = some sig →
      (handleTimeNoteClick v s).currentMeasureTotal =
        jsRound2 (s.currentMeasureTotal + v)) ∧
    (∀ (s : TimeGameState) (v : ℚ) (sig : Fin 3), s.currentTimeSig = some sig →
      |jsRound2 (s.currentMeasureTotal + v) - ((timeSigAt sig).beats : ℚ)| <
        1 / 1000 →
      (handleTimeNoteClick v s).timeScore = s.timeScore + 1 ∧
      (handleTimeNoteClick v s).timeRound = s.timeRound + 1) ∧
    (∀ (s : TimeGameState) (v : ℚ) (sig : Fin 3), s.currentTimeSig = some sig →
      ¬(|jsRound2 (s.currentMeasureTotal + v) - ((timeSigAt sig).beats : ℚ)| <
        1 / 1000) →
      jsRound2 (s.currentMeasureTotal + v) > ((timeSigAt sig).beats : ℚ) →
      (handleTimeNoteClick v s).timeRound = s.timeRound ∧
      (handleTimeNoteClick v s).timeScore = s.timeScore ∧
      (handleTimeNoteClick v s).pendingReset = s.pendingReset + 1) ∧
    (∀ s : TimeGameState, s.pendingReset ≠ 0 →
      (timeGameStep TimeGameEvent.resetTimer s).currentMeasureTotal = 0 ∧
      (timeGameStep TimeGameEvent.resetTimer s).timeRound = s.timeRound) ∧
    (∀ (s : TimeGameState) (v : ℚ) (sig : Fin 3), s.currentTimeSig = some sig →
      ¬(|jsRound2 (s.currentMeasureTotal + v) - ((timeSigAt sig).beats : ℚ)| <
        1 / 1000) →
      ¬(jsRound2 (s.currentMeasureTotal + v) > ((timeSigAt sig).beats : ℚ)) →
      (handleTimeNoteClick v s).timeRound = s.timeRound ∧
      (handleTimeNoteClick v s).timeScore = s.timeScore ∧
      (handleTimeNoteClick v s).pendingNext = s.pendingNext ∧
      (handleTimeNoteClick v s).pendingReset = s.pendingReset) ∧
    ((timeSigAt 1).beats = 3 ∧
      (timeGameRun (timeGameEnter 1)
        ([1, 1, 1].map TimeGameEvent.noteClick)).timeRound = 1 ∧
      (timeGameRun (timeGameEnter 1)
        ([1, 1, 1].map TimeGameEvent.noteClick)).timeScore = 1 ∧
      (timeGameRun (timeGameEnter 1)
        ([1, 1, 2].map TimeGameEvent.noteClick)).timeRound = 0 ∧
      (timeGameRun (timeGameEnter 1)
        ([1, 1, 2].map TimeGameEvent.noteClick)).currentMeasureTotal = 4 ∧
      (timeGameRun (timeGameEnter 1)
        ([1, 1, 2].map TimeGameEvent.noteClick ++
          [TimeGameEvent.resetTimer])).currentMeasureTotal = 0 ∧
      (timeGameRun (timeGameEnter 1)
        ([1, 1, 2].map TimeGameEvent.noteClick ++
          [TimeGameEvent.resetTimer])).timeRound = 0) := by
  refine ⟨?_, ?_, ?_, ?_, ?_, ?_⟩
  · intro s v sig hsig
    unfold handleTimeNoteClick
    rw [hsig]
    dsimp only
    split
    · rfl
    · split
      · rfl
      · rfl
  · intro s v sig hsig heps
    unfold handleTimeNoteClick
    rw [hsig]
    dsimp only
    rw [if_pos heps]
    exact ⟨rfl, rfl⟩
  · intro s v sig hsig heps hover
    unfold handleTimeNoteClick
    rw [hsig]
    dsimp only
    rw [if_neg heps, if_pos hover]
    exact ⟨rfl, rfl, rfl⟩
  · intro s hp
    unfold timeGameStep
    dsimp only
    rw [if_neg hp]
    exact ⟨rfl, rfl⟩
  · intro s v sig hsig heps hover
    unfold handleTimeNoteClick
    rw [hsig]
    dsimp only
    rw [if_neg heps, if_neg hover]
    exact ⟨rfl, rfl, rfl, rfl⟩
  · refine ⟨by decide, ?_, ?_, ?_, ?_, ?_, ?_⟩ <;>
      norm_num [timeGameRun, timeGameEnter, nextTimeRound, timeGameStep,
        handleTimeNoteClick, jsRound2, timeSigAt, TIME_SIGS, timeTotalRounds,
        List.foldl]

/-- Claim C5 witness: the branch rules instantiated on the 3/4 target — a
first click of value 3 resolves the round, a first click of value 4
overflows and the scheduled reset zeroes the total, and a first click of
value 1 resolves nothing. -/
theorem C5_witness :
    (handleTimeNoteClick 3 (timeGameEnter 1)).timeRound =
      (timeGameEnter 1).timeRound + 1 ∧
    (handleTimeNoteClick 4 (timeGameEnter 1)).timeRound =
      (timeGameEnter 1).timeRound ∧
    (handleTimeNoteClick 4 (timeGameEnter 1)).pendingReset =
      (timeGameEnter 1).pendingReset + 1 ∧
    (timeGameStep TimeGameEvent.resetTimer
        (handleTimeNoteClick 4 (timeGameEnter 1))).currentMeasureTotal = 0 ∧
    (handleTimeNoteClick 1 (timeGameEnter 1)).timeRound =
      (timeGameEnter 1).timeRound ∧
    (handleTimeNoteClick 3 (timeGameEnter 1)).currentMeasureTotal =
      jsRound2 ((timeGameEnter 1).currentMeasureTotal + 3) := by
  have hsig : (timeGameEnter 1).currentTimeSig = some 1 := rfl
  have h3 : |jsRound2 ((timeGameEnter 1).currentMeasureTotal + 3) -
      ((timeSigAt 1).beats : ℚ)| < 1 / 1000 := by
    norm_num [jsRound2, timeGameEnter, nextTimeRound, timeSigAt, TIME_SIGS,
      timeTotalRounds]
  have h4a : ¬(|jsRound2 ((timeGameEnter 1).currentMeasureTotal + 4) -
      ((timeSigAt 1).beats : ℚ)| < 1 / 1000) := by
    norm_num [jsRound2, timeGameEnter, nextTimeRound, timeSigAt, TIME_SIGS,
      timeTotalRounds]
  have h4b : jsRound2 ((timeGameEnter 1).currentMeasureTotal + 4) >
      ((timeSigAt 1).beats : ℚ) := by
    norm_num [jsRound2, timeGameEnter, nextTimeRound, timeSigAt, TIME_SIGS,
      timeTotalRounds]
  have h1a : ¬(|jsRound2 ((timeGameEnter 1).currentMeasureTotal + 1) -
      ((timeSigAt 1).beats : ℚ)| < 1 / 1000) := by
    norm_num [jsRound2, timeGameEnter, nextTimeRound, timeSigAt, TIME_SIGS,
      timeTotalRounds]
  have h1b : ¬(jsRound2 ((timeGameEnter 1).currentMeasureTotal + 1) >
      ((timeSigAt 1).beats : ℚ)) := by
    norm_num [jsRound2, timeGameEnter, nextTimeRound, timeSigAt, TIME_SIGS,
      timeTotalRounds]
  have hpr : (handleTimeNoteClick 4 (timeGameEnter 1)).pendingReset ≠ 0 := by
    rw [(C5_time_accumulation.2.2.1 (timeGameEnter 1) 4 1 hsig h4a h4b).2.2]
    norm_num [timeGameEnter, nextTimeRound, timeTotalRounds]
  exact ⟨(C5_time_accumulation.2.1 (timeGameEnter 1) 3 1 hsig h3).2,
    (C5_time_accumulation.2.2.1 (timeGameEnter 1) 4 1 hsig h4a h4b).1,
    (C5_time_accumulation.2.2.1 (timeGameEnter 1) 4 1 hsig h4a h4b).2.2,
    (C5_time_accumulation.2.2.2.1 _ hpr).1,
    (C5_time_accumulation.2.2.2.2.1 (timeGameEnter 1) 1 1 hsig h1a h1b).1,
    C5_time_accumulation.1 (timeGameEnter 1) 3 1 hsig⟩

/-- Claim C6 (confirmed): in the interval trainer, for a target whose root is
the catalog note at index `ri` and whose interval is the catalog entry `io`,
a guarded key click is judged correct — incrementing score and round index —
exactly when the clicked note equals the note at index
`rootIndex + intervalSteps` in the catalog ordering, and a wrong answer
leaves score and round index unchanged; in particular, root C with interval
"perfect fourth" (3 steps) expects answer F. -/
theorem C6_interval_answer_rule :
    (∀ (s : IntervalGameState) (k : Fin 7) (ri : Fin 7) (io : Fin 6)
      (hri : ri.val + (intervalAt io).steps < 7),
      s.intervalRoot = some (noteAt ri) →
      s.currentIntervalObj = some io →
      ¬(k ∈ s.correctKeys ∨ k ∈ s.wrongKeys) →
      (((handleIntervalKeyClick k s).intervalScore = s.intervalScore + 1 ∧
        (handleIntervalKeyClick k s).intervalRound = s.intervalRound + 1) ↔
        (noteAt k).name = (noteAt ⟨ri.val + (intervalAt io).steps, hri⟩).name) ∧
      ((noteAt k).name ≠ (noteAt ⟨ri.val + (intervalAt io).steps, hri⟩).name →
        (handleIntervalKeyClick k s).intervalRound = s.intervalRound ∧
        (handleIntervalKeyClick k s).intervalScore = s.intervalScore)) ∧
    ((intervalAt 2).name = "perfect fourth" ∧ (intervalAt 2).steps = 3 ∧
      (noteAt 0).name = 'C' ∧ (noteAt 3).name = 'F' ∧
      NOTES.findIdx (fun n => n.name == (noteAt 0).name) +
        (intervalAt 2).steps = 3) := by
  refine ⟨?_, by decide⟩
  intro s k ri io hri hroot hobj hguard
  unfold handleIntervalKeyClick
  rw [hroot, hobj]
  dsimp only
  rw [if_neg hguard, findIdx_noteAt ri]
  have hlen : ri.val + (intervalAt io).steps < NOTES.length := hri
  have hget : NOTES.get? (ri.val + (intervalAt io).steps) =
      some (noteAt ⟨ri.val + (intervalAt io).steps, hri⟩) :=
    List.get?_eq_get hlen
  rw [hget]
  dsimp only
  by_cases hname : (noteAt k).name =
      (noteAt ⟨ri.val + (intervalAt io).steps, hri⟩).name
  · rw [if_pos hname]
    exact ⟨⟨fun _ => hname, fun _ => ⟨rfl, rfl⟩⟩, fun h => absurd hname h⟩
  · rw [if_neg hname]
    refine ⟨⟨?_, fun h => absurd h hname⟩, fun _ => ⟨rfl, rfl⟩⟩
    intro hc
    exact absurd hc.1 (by dsimp only; omega)

/-- Claim C6 witness: after entering with draw (C, perfect fourth), clicking
the F key is judged correct and clicking the G key is not. -/
theorem C6_witness :
    (handleIntervalKeyClick 3 (intervalGameEnter [(0, 2)])).intervalScore =
      (intervalGameEnter [(0, 2)]).intervalScore + 1 ∧
    (handleIntervalKeyClick 3 (intervalGameEnter [(0, 2)])).intervalRound =
      (intervalGameEnter [(0, 2)]).intervalRound + 1 ∧
    (handleIntervalKeyClick 4 (intervalGameEnter [(0, 2)])).intervalRound =
      (intervalGameEnter [(0, 2)]).intervalRound :=
  ⟨((C6_interval_answer_rule.1 (intervalGameEnter [(0, 2)]) 3 0 2 (by decide)
      rfl rfl (by decide)).1.mpr (by decide)).1,
   ((C6_interval_answer_rule.1 (intervalGameEnter [(0, 2)]) 3 0 2 (by decide)
      rfl rfl (by decide)).1.mpr (by decide)).2,
   ((C6_interval_answer_rule.1 (intervalGameEnter [(0, 2)]) 4 0 2 (by decide)
      rfl rfl (by decide)).2 (by decide)).1⟩

/-- Claim C7 (confirmed): the rejection-sampling loop of `nextIntervalRound`
only ever accepts a root/interval pair whose target index
`rootIndex + intervalSteps` lies inside the 7-entry note catalog, and for
every reachable state of the interval trainer the answer handler's catalog
lookup at `rootIndex + intervalSteps` is never out of bounds. -/
theorem C7_rejection_sampling_in_range :
    (∀ (draws : List (Fin 7 × Fin 6)) (p : Fin 7 × Fin 6),
      pickValid draws = some p →
      p.1.val + (intervalAt p.2).steps < NOTES.length) ∧
    (∀ (draws : List (Fin 7 × Fin 6)) (evs : List IntervalGameEvent)
      (root : Note) (io : Fin 6),
      (intervalGameRun (intervalGameEnter draws) evs).intervalRoot = some root →
      (intervalGameRun (intervalGameEnter draws) evs).currentIntervalObj =
        some io →
      NOTES.get? (NOTES.findIdx (fun n => n.name == root.name) +
        (intervalAt io).steps) ≠ none) := by
  constructor
  · intro draws p hp
    have hvalid := List.find?_some hp
    simpa using of_decide_eq_true hvalid
  · intro draws evs root io hroot hobj
    obtain ⟨-, -, htar⟩ := intervalGameInv_run _ evs (intervalGameInv_enter draws)
    obtain ⟨ri, hri, rfl, -⟩ := htar root io hroot hobj
    rw [findIdx_noteAt ri]
    have hlen : ri.val + (intervalAt io).steps < NOTES.length := hri
    rw [List.get?_eq_get hlen]
    exact Option.some_ne_none _

/-- Claim C7 witness: entering with the draw stream [(C, major second)] gives
a target whose expected-answer lookup is in bounds, and that accepted pair
satisfies the sampling bound. -/
theorem C7_witness :
    NOTES.get? (NOTES.findIdx (fun n => n.name == (noteAt 0).name) +
      (intervalAt 0).steps) ≠ none ∧
    ((0 : Fin 7), (0 : Fin 6)).1.val +
      (intervalAt ((0 : Fin 7), (0 : Fin 6)).2).steps < NOTES.length :=
  ⟨C7_rejection_sampling_in_range.2 [(0, 0)] [] (noteAt 0) 0 rfl rfl,
   C7_rejection_sampling_in_range.1 [(0, 0)] (0, 0) rfl⟩

/-- Claim C8 (confirmed): in the chord builder each key click only toggles
the clicked note's membership in the selection (never judging, scoring or
advancing), selections stay duplicate-free, and the explicit check judges the
selection correct exactly when its set of note names equals the target
chord's note set, independent of order; for target {C,E,G}, the selection
G,C,E in any order passes while {C,E} and {C,E,G,A} fail. -/
theorem C8_chord_set_equality :
    (∀ (s : ChordGameState) (k : Fin 7),
      (handleChordKeyClick k s).chordRound = s.chordRound ∧
      (handleChordKeyClick k s).chordScore = s.chordScore ∧
      (handleChordKeyClick k s).currentChord = s.currentChord ∧
      (s.selectedNotes.Nodup →
        ((noteAt k).name ∈ (handleChordKeyClick k s).selectedNotes ↔
          (noteAt k).name ∉ s.selectedNotes) ∧
        (∀ c : Char, c ≠ (noteAt k).name →
          (c ∈ (handleChordKeyClick k s).selectedNotes ↔
            c ∈ s.selectedNotes)))) ∧
    (∀ (pick : Fin 6) (evs : List ChordGameEvent),
      (chordGameRun (chordGameEnter pick) evs).selectedNotes.Nodup) ∧
    (∀ (sel : List Char) (c : Fin 6), sel.Nodup →
      (chordJudge sel (chordAt c) = true ↔
        ∀ ch : Char, ch ∈ sel ↔ ch ∈ (chordAt c).notes)) ∧
    (∀ (s : ChordGameState) (c : Fin 6), s.currentChord = some c →
      chordJudge s.selectedNotes (chordAt c) = true →
      (checkChord s).chordScore = s.chordScore + 1) ∧
    ((chordAt 0).notes = ['C', 'E', 'G'] ∧
      chordJudge ['G', 'C', 'E'] (chordAt 0) = true ∧
      chordJudge ['C', 'E'] (chordAt 0) = false ∧
      chordJudge ['C', 'E', 'G', 'A'] (chordAt 0) = false) := by
  refine ⟨?_, ?_, ?_, ?_, by decide⟩
  · intro s k
    unfold handleChordKeyClick
    dsimp only
    by_cases hmem : (noteAt k).name ∈ s.selectedNotes
    · rw [if_pos hmem]
      refine ⟨rfl, rfl, rfl, ?_⟩
      intro hnd
      constructor
      · simp [List.Nodup.mem_erase_iff hnd, hmem]
      · intro c hc
        simp [List.Nodup.mem_erase_iff hnd, hc]
    · rw [if_neg hmem]
      refine ⟨rfl, rfl, rfl, ?_⟩
      intro hnd
      constructor
      · simp [hmem]
      · intro c hc
        simp [hc]
  · intro pick evs
    exact chordSelInv_run _ evs (chordSelInv_enter pick)
  · intro sel c hnd
    exact chordJudge_iff sel (chordAt c) hnd (chordAt_nodup c)
  · intro s c hcn hj
    unfold checkChord
    rw [hcn]
    dsimp only
    rw [hj]
    rfl

/-- Claim C8 witness: clicking the C key right after entering adds C to the
empty selection; C is in the set {G,C,E} judged equal to C major's notes; and
checking the correct selection G,C,E increments the score. -/
theorem C8_witness :
    ((noteAt 0).name ∈ (handleChordKeyClick 0 (chordGameEnter 0)).selectedNotes ↔
      (noteAt 0).name ∉ (chordGameEnter 0).selectedNotes) ∧
    ('C' ∈ (['G', 'C', 'E'] : List Char) ↔ 'C' ∈ (chordAt 0).notes) ∧
    (checkChord (chordGameRun (chordGameEnter 0)
        [ChordGameEvent.keyClick 4, ChordGameEvent.keyClick 0,
         ChordGameEvent.keyClick 2])).chordScore =
      (chordGameRun (chordGameEnter 0)
        [ChordGameEvent.keyClick 4, ChordGameEvent.keyClick 0,
         ChordGameEvent.keyClick 2]).chordScore + 1 :=
  ⟨((C8_chord_set_equality.1 (chordGameEnter 0) 0).2.2.2 (by decide)).1,
   (C8_chord_set_equality.2.2.1 ['G', 'C', 'E'] 0 (by decide)).mp (by decide) 'C',
   C8_chord_set_equality.2.2.2.1 _ 0 (by decide) (by decide)⟩

/-- Claim C9 (counterexample): clicking the exact next expected note does not
always advance the position — in the C-major scale round, after the first
seven notes the position is 7 and the expected note is the closing C, but the
C key is already marked correct from position 0, so clicking it leaves the
position at 7. -/
theorem C9_counterexample :
    (scaleGameRun (scaleGameEnter 0)
        ([0, 1, 2, 3, 4, 5, 6].map ScaleGameEvent.keyClick)).scaleIndex = 7 ∧
    (scaleAt 0).notes.get? 7 = some (noteAt 0).name ∧
    (scaleGameRun (scaleGameEnter 0)
        ([0, 1, 2, 3, 4, 5, 6, 0].map ScaleGameEvent.keyClick)).scaleIndex = 7 := by
  decide

/-- Claim C9 (amended): in scale practice a click on the exact next expected
note advances the position by one provided that note's key has not already
been marked correct earlier in the round (clicks on correct-marked keys are
ignored); a wrong or out-of-order note leaves the position unchanged and does
not fail the round — score, round index and target are untouched, so the
player retries the same position indefinitely. For target
[C,D,E,F,G,A,B,C], clicking C then F leaves the position at 1. -/
theorem C9_amended :
    (∀ (s : ScaleGameState) (k : Fin 7) (sc : Fin 3),
      s.currentScale = some sc → k ∉ s.correctKeys →
      (scaleAt sc).notes.get? s.scaleIndex = some (noteAt k).name →
      (handleScaleKeyClick k s).scaleIndex = s.scaleIndex + 1) ∧
    (∀ (s : ScaleGameState) (k : Fin 7) (sc : Fin 3),
      s.currentScale = some sc → k ∉ s.correctKeys →
      (scaleAt sc).notes.get? s.scaleIndex ≠ some (noteAt k).name →
      (handleScaleKeyClick k s).scaleIndex = s.scaleIndex ∧
      (handleScaleKeyClick k s).scaleRound = s.scaleRound ∧
      (handleScaleKeyClick k s).scaleScore = s.scaleScore ∧
      (handleScaleKeyClick k s).currentScale = s.currentScale) ∧
    (∀ (s : ScaleGameState) (k : Fin 7), k ∈ s.correctKeys →
      (handleScaleKeyClick k s).scaleIndex = s.scaleIndex) ∧
    ((scaleAt 0).notes = ['C', 'D', 'E', 'F', 'G', 'A', 'B', 'C'] ∧
      (scaleGameRun (scaleGameEnter 0)
        [ScaleGameEvent.keyClick 0]).scaleIndex = 1 ∧
      (scaleGameRun (scaleGameEnter 0)
        [ScaleGameEvent.keyClick 0, ScaleGameEvent.keyClick 3]).scaleIndex = 1) := by
  refine ⟨?_, ?_, ?_, by decide⟩
  · intro s k sc hcn hguard hexp
    unfold handleScaleKeyClick
    rw [hcn]
    dsimp only
    rw [if_neg hguard, if_pos hexp]
    split
    · rfl
    · rfl
  · intro s k sc hcn hguard hexp
    unfold handleScaleKeyClick
    rw [hcn]
    dsimp only
    rw [if_neg hguard, if_neg hexp]
    exact ⟨rfl, rfl, rfl, rfl⟩
  · intro s k hk
    unfold handleScaleKeyClick
    cases hcn : s.currentScale with
    | none => rfl
    | some sc =>
      dsimp only
      rw [if_pos hk]

/-- Claim C9 witness: the amended advance/retry rules instantiated on the
C-major round right after entry — clicking C (expected) advances to 1,
clicking F (not expected) keeps the position, and clicking the already
correct C key again keeps the position. -/
theorem C9_witness :
    (handleScaleKeyClick 0 (scaleGameEnter 0)).scaleIndex =
      (scaleGameEnter 0).scaleIndex + 1 ∧
    (handleScaleKeyClick 3 (scaleGameEnter 0)).scaleIndex =
      (scaleGameEnter 0).scaleIndex ∧
    (handleScaleKeyClick 0 (scaleGameRun (scaleGameEnter 0)
        [ScaleGameEvent.keyClick 0])).scaleIndex =
      (scaleGameRun (scaleGameEnter 0) [ScaleGameEvent.keyClick 0]).scaleIndex :=
  ⟨C9_amended.1 (scaleGameEnter 0) 0 0 (by decide) (by decide) (by decide),
   (C9_amended.2.1 (scaleGameEnter 0) 3 0 (by decide) (by decide) (by decide)).1,
   C9_amended.2.2.1 _ 0 (by decide)⟩

/-- Claim C10 (confirmed): the "octave" entry of the 6-entry interval catalog
has 7 steps, no root index in the 7-note catalog satisfies
`rootIndex + 7 < 7`, so the rejection-sampling loop never accepts the octave
— it is never a round target in any reachable state — while every one of the
five other catalog intervals is acceptable to the sampler. -/
theorem C10_octave_never_selected :
    (intervalAt 5).name = "octave" ∧
    (intervalAt 5).steps = 7 ∧
    (∀ r : Fin 7, ¬(r.val + (intervalAt 5).steps < NOTES.length)) ∧
    (∀ (draws : List (Fin 7 × Fin 6)) (p : Fin 7 × Fin 6),
      pickValid draws = some p → p.2 ≠ 5) ∧
    (∀ (draws : List (Fin 7 × Fin 6)) (evs : List IntervalGameEvent)
      (root : Note) (io : Fin 6),
      (intervalGameRun (intervalGameEnter draws) evs).intervalRoot = some root →
      (intervalGameRun (intervalGameEnter draws) evs).currentIntervalObj =
        some io →
      io ≠ 5) ∧
    (∀ io : Fin 6, io ≠ 5 →
      ∃ draws : List (Fin 7 × Fin 6), pickValid draws = some (0, io)) := by
  refine ⟨by decide, by decide, by decide, ?_, ?_, ?_⟩
  · intro draws p hp heq
    have hvalid := List.find?_some hp
    have hlt : p.1.val + (intervalAt p.2).steps < NOTES.length := by
      simpa using of_decide_eq_true hvalid
    rw [heq] at hlt
    have h7 : (intervalAt 5).steps = 7 := by decide
    have hlen : NOTES.length = 7 := rfl
    rw [h7, hlen] at hlt
    omega
  · intro draws evs root io hroot hobj heq
    obtain ⟨-, -, htar⟩ := intervalGameInv_run _ evs (intervalGameInv_enter draws)
    obtain ⟨ri, hri, -, -⟩ := htar root io hroot hobj
    rw [heq] at hri
    have h7 : (intervalAt 5).steps = 7 := by decide
    rw [h7] at hri
    omega
  · intro io hio
    fin_cases io
    · exact ⟨[(0, 0)], by decide⟩
    · exact ⟨[(0, 1)], by decide⟩
    · exact ⟨[(0, 2)], by decide⟩
    · exact ⟨[(0, 3)], by decide⟩
    · exact ⟨[(0, 4)], by decide⟩
    · exact absurd rfl hio

/-- Claim C10 witness: the sampler accepts the pair (C, major second) — a
non-octave interval — and that acceptance satisfies the theorem's
reachability clauses. -/
theorem C10_witness :
    (∃ draws : List (Fin 7 × Fin 6), pickValid draws = some (0, 0)) ∧
    ((0, 0) : Fin 7 × Fin 6).2 ≠ 5 :=
  ⟨C10_octave_never_selected.2.2.2.2.2 0 (by decide),
   C10_octave_never_selected.2.2.2.1 [(0, 0)] (0, 0) rfl⟩

end Music
